/-
Verification of the schema-inference engine of OpenGraphQL.

This file gives a shallow embedding of the MongoDB introspection code
(`MongoDBConnector.dynamicSampling`, `extractFieldPaths`,
`introspectCollection`, `analyzeDocumentWithNesting`, `isBinaryType`)
and of the GraphQL type mapper (`TypeMapper`), and proves or refutes the
frozen claims about the natural-language specification.

Modelling conventions:
* A BSON/JavaScript value is the inductive `BVal`.  Integral JavaScript
  numbers carry their exact integer value (`vint`); non-integral numbers
  are represented abstractly by `vfloat` (no claim depends on their
  magnitude).  `ObjectId`, `Date`, and Binary/Buffer values are atoms.
* JavaScript `Map`s are association lists preserving insertion order;
  `Map.set` on an existing key overwrites in place.
* `Set<string>` is an insertion-ordered duplicate-free list.
* Thrown exceptions are modelled with `Except String`.
* The recursive analyzers take an explicit fuel argument so that they are
  structurally recursive; the public wrappers supply fuel exceeding the
  value's tree size, so the fuel never runs out on the recursion the
  TypeScript code performs.
* The floating comparison `totalSampled >= totalDocCount * 0.8` is
  modelled exactly as `5 * totalSampled ≥ 4 * totalDocCount`.
-/
import Mathlib

namespace OpenGraphQL

/-- A JavaScript/BSON value as seen by the MongoDB connector. -/
inductive BVal where
  | vnull
  | vbool (b : Bool)
  | vint (n : Int)
  | vfloat
  | vstr (s : String)
  | vdate
  | vobjectId
  | varr (elems : List BVal)
  | vobj (fields : List (String × BVal))
  | vbinary
deriving Repr

namespace BVal

mutual

/-- Tree size of a value, used to provision fuel for the analyzers. -/
def size : BVal → Nat
  | varr xs => 1 + sizeArr xs
  | vobj fs => 1 + sizeObj fs
  | _ => 1

/-- Cumulative size of array elements. -/
def sizeArr : List BVal → Nat
  | [] => 0
  | x :: r => 1 + size x + sizeArr r

/-- Cumulative size of object entries. -/
def sizeObj : List (String × BVal) → Nat
  | [] => 0
  | (_, v) :: r => 1 + size v + sizeObj r

end

/-- `value === null || value === undefined`. -/
def isNull : BVal → Bool
  | vnull => true
  | _ => false

/-- `Array.isArray(value)`. -/
def isArr : BVal → Bool
  | varr _ => true
  | _ => false

/-- `value instanceof Date`. -/
def isDate : BVal → Bool
  | vdate => true
  | _ => false

/-- `value.constructor?.name === 'ObjectId'`. -/
def isObjectIdVal : BVal → Bool
  | vobjectId => true
  | _ => false

/-- `typeof value === 'object'` (true for `null` as well, as in JavaScript). -/
def typeofIsObject : BVal → Bool
  | vnull | varr _ | vobj _ | vdate | vobjectId | vbinary => true
  | _ => false

/-- Enumerate a list with stringified indices, as `Object.entries` does on
an array. -/
def enumEntries (i : Nat) : List BVal → List (String × BVal)
  | [] => []
  | x :: r => (toString i, x) :: enumEntries (i + 1) r

/-- `Object.entries(value)`: own enumerable entries.  Arrays expose their
elements under stringified indices; scalar-like objects (`Date`,
`ObjectId`, binary) expose none. -/
def entriesOf : BVal → List (String × BVal)
  | vobj fs => fs
  | varr xs => enumEntries 0 xs
  | _ => []

end BVal

/-! ### String primitives

Computations over `List Char`; the corresponding core `String` functions
are implemented by well-founded recursion over byte positions and do not
reduce inside the kernel, which the concrete evaluations below need. -/

/-- `s.startsWith(pre)`. -/
def jsStartsWith (s pre : String) : Bool :=
  pre.data.isPrefixOf s.data

/-- `s.endsWith(suf)`. -/
def jsEndsWith (s suf : String) : Bool :=
  suf.data.isSuffixOf s.data

/-- `s.toLowerCase()`. -/
def jsToLower (s : String) : String :=
  String.mk (s.data.map Char.toLower)

/-- `s.length` (all strings involved are ASCII). -/
def jsLength (s : String) : Nat :=
  s.data.length

/-- `s.slice(0, -n)`. -/
def jsDropRight (s : String) (n : Nat) : String :=
  String.mk (s.data.take (s.data.length - n))

/-- `s.includes(c)`. -/
def jsContains (s : String) (c : Char) : Bool :=
  s.data.contains c

/-- Split a character list at every separator, keeping empty pieces, as
`String.prototype.split` does. -/
def splitList (p : Char → Bool) : List Char → List (List Char)
  | [] => [[]]
  | c :: r =>
    if p c then [] :: splitList p r
    else
      match splitList p r with
      | [] => [[c]]
      | piece :: rest => (c :: piece) :: rest

/-- `s.split(p)`. -/
def jsSplit (p : Char → Bool) (s : String) : List String :=
  (splitList p s.data).map String.mk

/-- `parts.join(sep)`. -/
def jsJoinSep (sep : String) : List String → String
  | [] => ""
  | [s] => s
  | s :: rest => s ++ sep ++ jsJoinSep sep rest

/-- Concatenate a list of strings. -/
def jsJoin : List String → String
  | [] => ""
  | s :: rest => s ++ jsJoin rest

/-! ### String helpers of `TypeMapper` -/

/-- `/^\d+$/.test(s)`. -/
def jsAllDigits (s : String) : Bool :=
  !s.data.isEmpty && s.data.all Char.isDigit

/-- One character of the class `[0-9a-fA-F]`. -/
def jsIsHexChar (c : Char) : Bool :=
  c.isDigit || (('a' ≤ c && c ≤ 'f') || ('A' ≤ c && c ≤ 'F'))

/-- `TypeMapper.isObjectId`: `/^[0-9a-fA-F]{24}$/.test(s)`. -/
def isObjectIdStr (s : String) : Bool :=
  jsLength s = 24 && s.data.all jsIsHexChar

/-- Consume exactly `n` decimal digits from the front of a character list. -/
def consumeDigits : Nat → List Char → Option (List Char)
  | 0, cs => some cs
  | n + 1, c :: cs => if c.isDigit then consumeDigits n cs else none
  | _ + 1, [] => none

/-- Consume a single expected literal character. -/
def consumeChar (c : Char) : List Char → Option (List Char)
  | c' :: cs => if c' = c then some cs else none
  | [] => none

/-- `TypeMapper.isISODate`:
`/^\d{4}-\d{2}-\d{2}T\d{2}:\d{2}:\d{2}(\.\d{3})?Z?$/.test(s)`. -/
def isISODate (s : String) : Bool :=
  let rest? := do
    let cs ← consumeDigits 4 s.data
    let cs ← consumeChar '-' cs
    let cs ← consumeDigits 2 cs
    let cs ← consumeChar '-' cs
    let cs ← consumeDigits 2 cs
    let cs ← consumeChar 'T' cs
    let cs ← consumeDigits 2 cs
    let cs ← consumeChar ':' cs
    let cs ← consumeDigits 2 cs
    let cs ← consumeChar ':' cs
    consumeDigits 2 cs
  match rest? with
  | none => false
  | some cs =>
    let afterMs :=
      match cs with
      | '.' :: cs' =>
        match consumeDigits 3 cs' with
        | some cs'' => some cs''
        | none => none
      | _ => some cs
    match afterMs with
    | none => false
    | some [] => true
    | some ['Z'] => true
    | some _ => false

/-- `TypeMapper.sanitizeFieldName`: replace characters outside
`[a-zA-Z0-9_]` with `_`, and prepend `_` when the result does not start
with a letter or underscore. -/
def sanitizeFieldName (name : String) : String :=
  let sanitized := String.mk
    (name.data.map (fun c => if c.isAlphanum || c = '_' then c else '_'))
  match sanitized.data with
  | [] => "_" ++ sanitized
  | c :: _ => if c.isAlpha || c = '_' then sanitized else "_" ++ sanitized

/-- `word.charAt(0).toUpperCase() + word.slice(1).toLowerCase()`. -/
def capitalizeWord (w : String) : String :=
  match w.data with
  | [] => ""
  | c :: rest => String.mk (c.toUpper :: rest.map Char.toLower)

/-- `TypeMapper.toPascalCase`: split on `[-_\s]`, capitalize each word,
join. -/
def toPascalCase (s : String) : String :=
  jsJoin ((jsSplit (fun c => c = '-' || c = '_' || c.isWhitespace) s).map capitalizeWord)

/-- The irregular-plural table shared by `singularize` and
`singularizeWord`. -/
def irregularPlurals : List (String × String) :=
  [("people", "person"), ("men", "man"), ("women", "woman"),
   ("children", "child"), ("teeth", "tooth"), ("feet", "foot"),
   ("mice", "mouse"), ("geese", "goose"), ("movies", "movie"),
   ("series", "series"), ("species", "species")]

/-- `TypeMapper.singularizeWord`. -/
def singularizeWord (word : String) : String :=
  let lower := jsToLower word
  match irregularPlurals.lookup lower with
  | some s => s
  | none =>
    if jsEndsWith lower "ies" && jsLength lower > 4 then jsDropRight lower 3 ++ "y"
    else if jsEndsWith lower "ves" then jsDropRight lower 3 ++ "f"
    else if jsEndsWith lower "ses" || jsEndsWith lower "xes" || jsEndsWith lower "zes" then
      jsDropRight lower 2
    else if jsEndsWith lower "ches" || jsEndsWith lower "shes" then jsDropRight lower 2
    else if jsEndsWith lower "oes" then jsDropRight lower 2
    else if jsEndsWith lower "s" && !jsEndsWith lower "ss" && !jsEndsWith lower "us" then
      jsDropRight lower 1
    else lower

/-- `TypeMapper.singularize`. -/
def singularize (word : String) : String :=
  let lower := jsToLower word
  match irregularPlurals.lookup lower with
  | some s => s
  | none =>
    if jsContains lower '_' then
      let parts := jsSplit (fun c => c = '_') lower
      match parts.reverse with
      | [] => lower
      | lastPart :: before =>
        jsJoinSep "_" ((singularizeWord lastPart :: before).reverse)
    else singularizeWord lower

/-- `TypeMapper.mapMongoDBType` as it appears in the repository: integral
numbers map to `Int` regardless of magnitude, non-integral to `Float`. -/
def mapMongoDBType : BVal → String
  | .vnull => "String"
  | .varr [] => "JSON"
  | .varr (x :: _) => mapMongoDBType x
  | .vstr s =>
    if isISODate s then "String"
    else if isObjectIdStr s then "ID"
    else "String"
  | .vint _ => "Int"
  | .vfloat => "Float"
  | .vbool _ => "Boolean"
  | .vdate => "String"
  | .vobjectId => "ID"
  | .vobj _ => "JSON"
  | .vbinary => "JSON"

/-- `MongoDBConnector.isBinaryType`: BSON `Binary`/`Buffer` values, and the
heuristic for objects that look like exposed binary buffers (a numeric
`length` property greater than 100, with more than half of the keys, and
more than 50 of them, numeric). -/
def isBinaryType (v : BVal) : Bool :=
  match v with
  | .vbinary => true
  | .vobj fs =>
    match fs.lookup "length" with
    | some (.vint n) =>
      if n > 100 then
        let keys := fs.map Prod.fst
        let numericKeys := keys.filter jsAllDigits
        decide (2 * numericKeys.length > keys.length) && decide (numericKeys.length > 50)
      else false
    | _ => false
  | .varr xs =>
    if (xs.length : Int) > 100 then
      let keys := (BVal.entriesOf (.varr xs)).map Prod.fst
      let numericKeys := keys.filter jsAllDigits
      decide (2 * numericKeys.length > keys.length) && decide (numericKeys.length > 50)
    else false
  | _ => false

/-! ### Schema data model -/

/-- A merged field record as accumulated during analysis
(`FieldDefinition & { occurrences: number }` in the source). -/
structure FieldAcc where
  name : String
  type : String
  isArray : Bool
  isNullable : Bool
  isRequired : Bool := false
  occurrences : Nat
deriving Repr, DecidableEq

/-- The final `FieldDefinition` record (occurrence tracking stripped). -/
structure FieldDefinition where
  name : String
  type : String
  isArray : Bool
  isNullable : Bool
  isRequired : Bool := false
deriving Repr, DecidableEq

/-- `({ occurrences, ...field })`: drop the occurrence counter. -/
def stripOcc (f : FieldAcc) : FieldDefinition :=
  ⟨f.name, f.type, f.isArray, f.isNullable, f.isRequired⟩

/-- `{ ...field, occurrences: n }`: re-attach an occurrence counter. -/
def accOf (f : FieldDefinition) (n : Nat) : FieldAcc :=
  ⟨f.name, f.type, f.isArray, f.isNullable, f.isRequired, n⟩

/-- An `EntitySchema`: named ordered field collection, possibly nested. -/
structure EntitySchema where
  name : String
  fields : List FieldDefinition
  description : String := ""
  isNested : Bool := false
  sourceName : Option String := none
deriving Repr, DecidableEq

/-- The per-run field map (`Map<string, FieldDefinition & {occurrences}>`),
as an insertion-ordered association list. -/
abbrev FieldMap := List (String × FieldAcc)

/-- The nested-type registry (`Map<string, EntitySchema>`). -/
abbrev NestedMap := List (String × EntitySchema)

/-- `Map.set`: overwrite in place when the key exists, append otherwise. -/
def setAssoc {α : Type} (k : String) (v : α) : List (String × α) → List (String × α)
  | [] => [(k, v)]
  | (k', v') :: rest => if k' = k then (k, v) :: rest else (k', v') :: setAssoc k v rest

/-! ### `analyzeDocumentWithNesting` -/

/-- Lines 479–514 of the connector: add a new field with the inferred type,
or merge a repeated observation into the existing record (occurrence bump,
type-conflict resolution, array-inconsistency handling). -/
def finishEntry (sanitizedName ftype : String) (isArray : Bool)
    (fieldMap : FieldMap) (nestedTypes : NestedMap)
    (shouldCreateNestedType : Bool) : Except String (FieldMap × NestedMap) :=
  match fieldMap.lookup sanitizedName with
  | none =>
    .ok (setAssoc sanitizedName
      ⟨sanitizedName, ftype, isArray, true, false, 1⟩ fieldMap, nestedTypes)
  | some existingField =>
    let f1 := { existingField with occurrences := existingField.occurrences + 1 }
    let f2 :=
      if f1.type ≠ ftype then
        if shouldCreateNestedType then { f1 with type := ftype }
        else if ftype = "JSON" || f1.type = "JSON" then { f1 with type := "JSON" }
        else if ftype = "String" || f1.type = "String" then { f1 with type := "String" }
        else if (ftype = "Float" && f1.type = "Int") || (ftype = "Int" && f1.type = "Float") then
          { f1 with type := "Float" }
        else { f1 with type := "JSON" }
      else f1
    let f3 :=
      if isArray ≠ f2.isArray then { f2 with isArray := true, isNullable := true }
      else f2
    .ok (setAssoc sanitizedName f3 fieldMap, nestedTypes)

/-- `${currentPath}${currentPath ? '.' : ''}${key}`. -/
def childPath (currentPath key : String) : String :=
  currentPath ++ (if currentPath ≠ "" then "." else "") ++ key

/-- One `[key, value]` iteration of the `Object.entries` loop of
`analyzeDocumentWithNesting`, parameterized by the recursive analyzer
(`recurse doc fieldMap parentTypeName currentPath nestedTypes`).  A
`TypeError` is raised, as in JavaScript, when the representative array
element is `null` and the code dereferences `null.constructor`. -/
def analyzeEntryCore
    (recurse : BVal → FieldMap → String → String → NestedMap →
      Except String (FieldMap × NestedMap))
    (key : String) (value : BVal) (fieldMap : FieldMap)
    (parentTypeName currentPath : String) (nestedTypes : NestedMap) :
    Except String (FieldMap × NestedMap) :=
  if key = "_id" && currentPath = "" then .ok (fieldMap, nestedTypes)
  else if jsStartsWith key "__" || jsStartsWith key "$" then .ok (fieldMap, nestedTypes)
  else
    let sanitizedName := sanitizeFieldName key
    if value.isNull then
      match fieldMap.lookup sanitizedName with
      | some field =>
        .ok (setAssoc sanitizedName { field with isNullable := true } fieldMap, nestedTypes)
      | none =>
        .ok (setAssoc sanitizedName
          ⟨sanitizedName, "String", false, true, false, 1⟩ fieldMap, nestedTypes)
    else
      let isArray := value.isArr
      let valueToAnalyze :=
        match value with
        | .varr (x :: _) => x
        | v => v
      if isArray && (match value with | .varr [] => true | _ => false) then
        finishEntry sanitizedName "JSON" isArray fieldMap nestedTypes false
      else if isBinaryType valueToAnalyze then
        finishEntry sanitizedName "JSON" isArray fieldMap nestedTypes false
      else if valueToAnalyze.isNull then
        .error "TypeError: Cannot read properties of null (reading constructor)"
      else if valueToAnalyze.typeofIsObject && !valueToAnalyze.isDate
          && !valueToAnalyze.isObjectIdVal then
        let objectKeys := (BVal.entriesOf valueToAnalyze).map Prod.fst
        if objectKeys.length > 0 && !isBinaryType valueToAnalyze then
          let nestedTypeName := parentTypeName ++ toPascalCase key
          match nestedTypes.lookup nestedTypeName with
          | none =>
            match recurse valueToAnalyze [] nestedTypeName
                (childPath currentPath key) nestedTypes with
            | .error e => .error e
            | .ok (nestedFieldMap, nt2) =>
              let nestedFields := nestedFieldMap.map
                (fun p => { stripOcc p.2 with isNullable := true })
              let nt3 := setAssoc nestedTypeName
                ⟨nestedTypeName, nestedFields,
                  "Nested type from " ++ parentTypeName ++ "." ++ key, true, none⟩ nt2
              finishEntry sanitizedName nestedTypeName isArray fieldMap nt3 true
          | some existingType =>
            let seeded : FieldMap := existingType.fields.map (fun f => (f.name, accOf f 1))
            match recurse valueToAnalyze seeded nestedTypeName
                (childPath currentPath key) nestedTypes with
            | .error e => .error e
            | .ok (nfm, nt2) =>
              let updatedFields := nfm.map (fun p => stripOcc p.2)
              let nt3 := setAssoc nestedTypeName
                { existingType with fields := updatedFields } nt2
              finishEntry sanitizedName nestedTypeName isArray fieldMap nt3 true
        else
          finishEntry sanitizedName "JSON" isArray fieldMap nestedTypes false
      else
        finishEntry sanitizedName (mapMongoDBType valueToAnalyze) isArray fieldMap
          nestedTypes false

/-- `analyzeDocumentWithNesting` with explicit fuel (one unit per
document-level recursion).  Returning early when the document is not a
non-null object mirrors `if (!doc || typeof doc !== 'object') return`. -/
def analyzeDocF : Nat → BVal → FieldMap → Nat → String → String → NestedMap →
    Except String (FieldMap × NestedMap)
  | 0, _, _, _, _, _, _ => .error "recursion limit exhausted"
  | fuel + 1, doc, fieldMap, totalDocs, parentTypeName, currentPath, nestedTypes =>
    if doc.typeofIsObject && !doc.isNull then
      (BVal.entriesOf doc).foldlM
        (fun (st : FieldMap × NestedMap) kv =>
          analyzeEntryCore
            (fun d fm pn cp nt => analyzeDocF fuel d fm totalDocs pn cp nt)
            kv.1 kv.2 st.1 parentTypeName currentPath st.2)
        (fieldMap, nestedTypes)
    else .ok (fieldMap, nestedTypes)

/-- Public wrapper for `analyzeDocumentWithNesting`; the fuel exceeds the
document's nesting depth, so the analysis never hits the fuel bound. -/
def analyzeDocumentWithNesting (doc : BVal) (fieldMap : FieldMap) (totalDocs : Nat)
    (parentTypeName currentPath : String) (nestedTypes : NestedMap) :
    Except String (FieldMap × NestedMap) :=
  analyzeDocF (BVal.size doc + 1) doc fieldMap totalDocs parentTypeName currentPath
    nestedTypes

/-! ### `introspectCollection` and `introspect` -/

/-- Result of `introspectCollection`, with a flag recording whether a
warning-level log was emitted on this path. -/
structure IntrospectResult where
  mainEntity : EntitySchema
  nestedTypes : List EntitySchema
  warned : Bool
deriving Repr, DecidableEq

/-- Sequentially analyze the sampled documents into the field map and
nested-type registry (the `for (const doc of documents)` loop). -/
def analyzeDocs : List BVal → FieldMap → Nat → String → NestedMap →
    Except String (FieldMap × NestedMap)
  | [], fieldMap, _, _, nestedTypes => .ok (fieldMap, nestedTypes)
  | doc :: rest, fieldMap, totalDocs, typeName, nestedTypes =>
    match analyzeDocumentWithNesting doc fieldMap totalDocs typeName "" nestedTypes with
    | .error e => .error e
    | .ok (fm', nt') => analyzeDocs rest fm' totalDocs typeName nt'

/-- The run-end nullability pass (lines 317–326): a field keeps
`isNullable = false` only when it occurred in every document *and* its
accumulated flag is already `false`; otherwise it is marked nullable. -/
def finalizeField (docCount : Nat) (f : FieldAcc) : FieldDefinition :=
  if f.occurrences = docCount && !f.isNullable then
    { stripOcc f with isNullable := false }
  else
    { stripOcc f with isNullable := true }

/-- The minimal single-identifier schema returned for an empty collection. -/
def minimalEntity (collectionName : String) : EntitySchema :=
  ⟨toPascalCase (singularize collectionName),
    [⟨"_id", "ID", false, false, true⟩],
    "Collection: " ++ collectionName, false, none⟩

/-- `introspectCollection`, taking the sampled documents as input:
empty collections yield the minimal schema with a warning; otherwise the
`_id` field is seeded, every document is analyzed, and nullability is
recomputed at run end. -/
def introspectCollection (collectionName : String) (documents : List BVal) :
    Except String IntrospectResult :=
  if documents.length = 0 then
    .ok ⟨minimalEntity collectionName, [], true⟩
  else
    let typeName := toPascalCase (singularize collectionName)
    let fieldMap0 : FieldMap :=
      [("_id", ⟨"_id", "ID", false, false, true, documents.length⟩)]
    match analyzeDocs documents fieldMap0 documents.length typeName [] with
    | .error e => .error e
    | .ok (fieldMap, nestedTypes) =>
      let fields := fieldMap.map (fun p => finalizeField documents.length p.2)
      .ok ⟨⟨typeName, fields,
        "Collection: " ++ collectionName ++ " (sampled " ++
          toString documents.length ++ " documents, " ++
          toString fields.length ++ " unique fields)",
        false, some collectionName⟩,
        nestedTypes.map Prod.snd, false⟩

/-- The multi-collection `introspect` loop: a failing collection is caught,
logged (counted in the second component) and skipped; its entities are not
added. -/
def introspect : List (String × List BVal) → List EntitySchema × Nat
  | [] => ([], 0)
  | (name, docs) :: rest =>
    let tail := introspect rest
    match introspectCollection name docs with
    | .ok r =>
      (r.mainEntity :: r.nestedTypes ++ tail.1,
        (if r.warned then 1 else 0) + tail.2)
    | .error _ => (tail.1, 1 + tail.2)

/-! ### `extractFieldPaths` -/

/-- `Set.add`: append when not yet present. -/
def addPath (s : String) (fps : List String) : List String :=
  if s ∈ fps then fps else fps ++ [s]

/-- `extractFieldPaths` with explicit fuel (one unit per recursion into a
nested value). -/
def extractFieldPathsF : Nat → BVal → String → List String → List String
  | 0, _, _, fps => fps
  | fuel + 1, obj, prefx, fps =>
    if obj.isNull then fps
    else if !obj.typeofIsObject then fps
    else
      match obj with
      | .varr [] => fps
      | .varr (x :: _) =>
        let fieldPath := if prefx = "" then "array" else prefx
        let fps1 := addPath (fieldPath ++ "[]") fps
        extractFieldPathsF fuel x (fieldPath ++ "[]") fps1
      | other =>
        (BVal.entriesOf other).foldl
          (fun acc kv =>
            if jsStartsWith kv.1 "__" || jsStartsWith kv.1 "$" then acc
            else
              let fieldPath := if prefx = "" then kv.1 else prefx ++ "." ++ kv.1
              if isBinaryType kv.2 then addPath fieldPath acc
              else
                let acc1 := addPath fieldPath acc
                if !kv.2.isNull && kv.2.typeofIsObject then
                  extractFieldPathsF fuel kv.2 fieldPath acc1
                else acc1)
          fps

/-- Public wrapper for `extractFieldPaths`. -/
def extractFieldPaths (obj : BVal) (prefx : String) (fps : List String) : List String :=
  extractFieldPathsF (BVal.size obj + 1) obj prefx fps

/-! ### `dynamicSampling` -/

def INITIAL_BATCH_SIZE : Nat := 50
def SUBSEQUENT_BATCH_SIZE : Nat := 100
def MAX_SAMPLES : Nat := 5000
def STABLE_ITERATIONS : Nat := 2

/-- The mutable loop state of `dynamicSampling`.  `trace` additionally
records the cumulative sampled count at each batch boundary, for stating
properties about the stopping behavior. -/
structure SamplingState where
  allDocuments : List BVal
  seenFieldPaths : List String
  totalSampled : Nat
  iterationsWithoutNewFields : Nat
  iteration : Nat
  trace : List Nat
deriving Repr

/-- One iteration of the `while` body of `dynamicSampling`.  The sampler
models `collection.aggregate([{ $sample: { size: k } }])` as a function of
the requested size and the iteration number.  The returned flag is `false`
whenever the body hits a `break`. -/
def samplingBodyStep (sampler : Nat → Nat → List BVal) (totalDocCount : Nat)
    (st : SamplingState) : SamplingState × Bool :=
  let iteration := st.iteration + 1
  let batchSize := if iteration = 1 then INITIAL_BATCH_SIZE else SUBSEQUENT_BATCH_SIZE
  let remainingSamples := min batchSize (MAX_SAMPLES - st.totalSampled)
  if remainingSamples = 0 then ({ st with iteration := iteration }, false)
  else
    let batch := sampler (min remainingSamples totalDocCount) iteration
    if batch.isEmpty then ({ st with iteration := iteration }, false)
    else
      let newPaths := batch.foldl (fun fps doc => extractFieldPaths doc "" fps)
        st.seenFieldPaths
      let newFieldsFound := newPaths.length - st.seenFieldPaths.length
      let total' := st.totalSampled + batch.length
      let counter' :=
        if newFieldsFound = 0 then st.iterationsWithoutNewFields + 1 else 0
      let st' : SamplingState :=
        ⟨st.allDocuments ++ batch, newPaths, total', counter', iteration,
          st.trace ++ [total']⟩
      if 5 * total' ≥ 4 * totalDocCount then (st', false) else (st', true)

/-- The `while (totalSampled < MAX_SAMPLES && iterationsWithoutNewFields <
STABLE_ITERATIONS)` loop.  Each continued iteration samples at least one
document, so `MAX_SAMPLES + 1` units of fuel always suffice. -/
def samplingLoopF (sampler : Nat → Nat → List BVal) (totalDocCount : Nat) :
    Nat → SamplingState → SamplingState
  | 0, st => st
  | fuel + 1, st =>
    if st.totalSampled < MAX_SAMPLES &&
        st.iterationsWithoutNewFields < STABLE_ITERATIONS then
      let res := samplingBodyStep sampler totalDocCount st
      if res.2 then samplingLoopF sampler totalDocCount fuel res.1 else res.1
    else st

/-- The value returned by `dynamicSampling` (plus loop metrics exposed for
specification purposes). -/
structure SamplingResult where
  documents : List BVal
  totalSampled : Nat
  uniqueFieldCount : Nat
  finalStableCounter : Nat
  iterations : Nat
  trace : List Nat
deriving Repr

/-- `dynamicSampling`: a zero document count returns the empty result
immediately; otherwise the sampling loop runs from the fresh state. -/
def dynamicSampling (sampler : Nat → Nat → List BVal) (totalDocCount : Nat) :
    SamplingResult :=
  if totalDocCount = 0 then ⟨[], 0, 0, 0, 0, []⟩
  else
    let final := samplingLoopF sampler totalDocCount (MAX_SAMPLES + 1)
      ⟨[], [], 0, 0, 0, []⟩
    ⟨final.allDocuments, final.totalSampled, final.seenFieldPaths.length,
      final.iterationsWithoutNewFields, final.iteration, final.trace⟩

/-- `introspectCollection` on the smart-scan path: the documents fed to the
analysis are those produced by `dynamicSampling`. -/
def introspectCollectionSmart (sampler : Nat → Nat → List BVal)
    (totalDocCount : Nat) (collectionName : String) : Except String IntrospectResult :=
  introspectCollection collectionName (dynamicSampling sampler totalDocCount).documents

/-! ## Claims -/

/-- C2: the claim states that integral values outside the 32-bit signed
range (such as the millisecond epoch timestamp 1700000000000) map to
floating-point.  The repository's `TypeMapper.mapMongoDBType` has no
magnitude check: it classifies every integral number as `Int`, so the
timestamp 1700000000000 is mapped to `Int`, contradicting the claim and
the repository's own documentation; in-range integral values are mapped
to `Int` as claimed. -/
theorem c2_mapMongoDBType_ignores_magnitude :
    mapMongoDBType (.vint 1700000000000) = "Int" ∧
    mapMongoDBType (.vint 2147483647) = "Int" ∧
    mapMongoDBType (.vint 5) = "Int" ∧
    mapMongoDBType .vfloat = "Float" :=
  ⟨rfl, rfl, rfl, rfl⟩

/-- C1: the claim states that a field observed as a populated object and
as an empty object converges to the synthesized nested type in either
order.  In the code, only the order (empty, then populated) upgrades to
the nested type `ItemM`; the order (populated, then empty) downgrades the
already-synthesized nested type back to the opaque `JSON` type, because
the empty-object observation carries type `JSON` and the merge rule
`type === 'JSON' → existing.type = 'JSON'` fires before any
nested-type-preservation check. -/
theorem c1_empty_object_reverts_nested_type :
    (introspectCollection "items"
        [.vobj [("m", .vobj [("t", .vstr "x")])], .vobj [("m", .vobj [])]]).map
      (fun r => r.mainEntity.fields.map (fun f => (f.name, f.type))) =
      .ok [("_id", "ID"), ("m", "JSON")] ∧
    (introspectCollection "items"
        [.vobj [("m", .vobj [])], .vobj [("m", .vobj [("t", .vstr "x")])]]).map
      (fun r => r.mainEntity.fields.map (fun f => (f.name, f.type))) =
      .ok [("_id", "ID"), ("m", "ItemM")] :=
  ⟨rfl, rfl⟩

/-- C4 (counterexample): the claim states that null observations never fix
a field's type and that the final type equals the type inferred from the
first non-null observation.  Observing `f: null` and then `f: true`
yields final type `String`, not `Boolean`, although the first non-null
observation infers `Boolean`: the null observation installs a `String`
placeholder that later widens the boolean. -/
theorem c4_null_first_fixes_string_type :
    (introspectCollection "items"
        [.vobj [("f", .vnull)], .vobj [("f", .vbool true)]]).map
      (fun r => r.mainEntity.fields.map (fun f => (f.name, f.type))) =
      .ok [("_id", "ID"), ("f", "String")] ∧
    mapMongoDBType (.vbool true) = "Boolean" :=
  ⟨rfl, rfl⟩

/-- C5: the claim (and the code's own comments) state that a field present
with a non-null value in every sampled document is non-nullable in the
final schema.  The run-end pass only clears the nullable flag when the
accumulated flag is already `false`, but every discovered field is
inserted with `isNullable: true`, so even a field present in 1/1 documents
stays nullable; only the seeded `_id` is non-nullable. -/
theorem c5_always_present_field_still_nullable :
    (introspectCollection "items" [.vobj [("a", .vint 5)]]).map
      (fun r => r.mainEntity.fields) =
      .ok [⟨"_id", "ID", false, false, true⟩, ⟨"a", "Int", false, true, false⟩] :=
  rfl

/-- C8 (counterexample): the claim states that a single malformed document
is caught, skipped, and the collection still yields a schema.  A document
whose field holds the array `[null]` raises a `TypeError` inside
`analyzeDocumentWithNesting`; nothing catches it per document, so the
whole collection is dropped (caught only by the per-collection handler in
`introspect`, which logs a warning): the result contains no entity for
collection `as`, only for the later collection `bs`. -/
theorem c8_malformed_document_aborts_collection :
    introspectCollection "as" [.vobj [("a", .varr [.vnull])]] =
      .error "TypeError: Cannot read properties of null (reading constructor)" ∧
    (introspect [("as", [.vobj [("a", .varr [.vnull])]]),
        ("bs", [.vobj [("b", .vint 1)]])]).1.map EntitySchema.name = ["B"] ∧
    (introspect [("as", [.vobj [("a", .varr [.vnull])]]),
        ("bs", [.vobj [("b", .vint 1)]])]).2 = 1 :=
  ⟨rfl, rfl, rfl⟩

/-- C10 (counterexample): the claim states the fixed `_id` definition
(type `ID`, non-array, non-nullable) survives regardless of the sampled
documents' contents.  A document with the root key `".id"` — which
sanitizes to `_id` — merges into the seeded `_id` record: the type widens
to `JSON` and the extra occurrence makes the run-end pass mark `_id`
nullable. -/
theorem c10_sanitized_key_collides_with_id :
    sanitizeFieldName ".id" = "_id" ∧
    (introspectCollection "items" [.vobj [(".id", .vint 5)]]).map
      (fun r => r.mainEntity.fields) =
      .ok [⟨"_id", "JSON", false, true, true⟩] :=
  ⟨rfl, rfl⟩

/-- C7: when the collection's total document count is 0, the sampling loop
returns no documents and `introspectCollection` does not fail: it returns
the minimal schema whose only field is the non-array, non-nullable `_id`
of type `ID`, with no nested types, and emits a warning-level signal. -/
theorem c7_empty_collection_minimal_schema (sampler : Nat → Nat → List BVal)
    (name : String) :
    introspectCollectionSmart sampler 0 name = .ok ⟨minimalEntity name, [], true⟩ ∧
    (minimalEntity name).fields = [⟨"_id", "ID", false, false, true⟩] ∧
    (minimalEntity name).isNested = false :=
  ⟨rfl, rfl, rfl⟩

/-- C3 (counterexample): the claim states that a batch whose delta of
newly discovered field paths is 1 still increments the stable-batch
counter (threshold "below 2").  Starting from the fresh state with
counter 0, a batch discovering exactly one new field path leaves the
counter at 0 — the code resets on any nonzero delta — instead of
incrementing it to 1. -/
theorem c3_delta_one_resets_counter :
    ((samplingBodyStep (fun _ _ => [.vobj [("a", .vint 1)]]) 1000000
        ⟨[], [], 0, 0, 0, []⟩).1).seenFieldPaths.length = 1 ∧
    ((samplingBodyStep (fun _ _ => [.vobj [("a", .vint 1)]]) 1000000
        ⟨[], [], 0, 0, 0, []⟩).1).iterationsWithoutNewFields = 0 ∧
    ¬ ((samplingBodyStep (fun _ _ => [.vobj [("a", .vint 1)]]) 1000000
        ⟨[], [], 0, 0, 0, []⟩).1).iterationsWithoutNewFields = 0 + 1 :=
  ⟨rfl, rfl, by decide⟩

/-- C3 (amended): the stable-batch counter increments exactly on a batch
with zero newly discovered field paths and resets on any batch with one
or more; batch-less iterations leave it unchanged; and the sampling loop
stops (returns its state unchanged) once the counter has reached the
configured `STABLE_ITERATIONS = 2`. -/
theorem c3_amended_counter_dynamics :
    (∀ (sampler : Nat → Nat → List BVal) (count : Nat) (st : SamplingState),
      ((samplingBodyStep sampler count st).1).iterationsWithoutNewFields =
        (let iteration := st.iteration + 1
         let batchSize := if iteration = 1 then INITIAL_BATCH_SIZE
           else SUBSEQUENT_BATCH_SIZE
         let remainingSamples := min batchSize (MAX_SAMPLES - st.totalSampled)
         let batch := sampler (min remainingSamples count) iteration
         if remainingSamples = 0 then st.iterationsWithoutNewFields
         else if batch.isEmpty then st.iterationsWithoutNewFields
         else if (batch.foldl (fun fps doc => extractFieldPaths doc "" fps)
             st.seenFieldPaths).length - st.seenFieldPaths.length = 0 then
           st.iterationsWithoutNewFields + 1
         else 0)) ∧
    (∀ (sampler : Nat → Nat → List BVal) (count fuel : Nat) (st : SamplingState),
      STABLE_ITERATIONS ≤ st.iterationsWithoutNewFields →
      samplingLoopF sampler count fuel st = st) := by
  constructor
  · intro sampler count st
    simp only [samplingBodyStep]
    repeat' split
    all_goals rfl
  · intro sampler count fuel st h
    cases fuel with
    | zero => rfl
    | succ fuel =>
      have hlt : ¬ st.iterationsWithoutNewFields < STABLE_ITERATIONS := by omega
      simp [samplingLoopF, hlt]

/-- Witness for the amended C3 theorem: with the counter already at the
stable threshold, the loop performs no further batch. -/
theorem c3_amended_witness :
    samplingLoopF (fun _ _ => []) 9 5 ⟨[], [], 0, 2, 0, []⟩ = ⟨[], [], 0, 2, 0, []⟩ :=
  c3_amended_counter_dynamics.2 (fun _ _ => []) 9 5 ⟨[], [], 0, 2, 0, []⟩ (by decide)

/-! ### Hard-stop invariants of the sampling loop (C6) -/

theorem mem_of_mem_dropLast {l : List Nat} {c : Nat} (h : c ∈ l.dropLast) : c ∈ l :=
  (List.dropLast_prefix l).subset h

theorem dropLast_append_single (l : List Nat) (a : Nat) : (l ++ [a]).dropLast = l := by
  rw [List.dropLast_concat]

/-- One body iteration keeps the cumulative count within `MAX_SAMPLES`
(provided the sampler honors the requested size), keeps every recorded
batch boundary strictly below the 80% threshold while the loop continues,
and below it except possibly for the final boundary when it stops. -/
theorem samplingBodyStep_bound (sampler : Nat → Nat → List BVal) (count : Nat)
    (hs : ∀ k i, (sampler k i).length ≤ k) (st : SamplingState)
    (h1 : st.totalSampled ≤ MAX_SAMPLES)
    (h2 : ∀ c ∈ st.trace, 5 * c < 4 * count) :
    (samplingBodyStep sampler count st).1.totalSampled ≤ MAX_SAMPLES ∧
    ((samplingBodyStep sampler count st).2 = true →
      ∀ c ∈ (samplingBodyStep sampler count st).1.trace, 5 * c < 4 * count) ∧
    ((samplingBodyStep sampler count st).2 = false →
      ∀ c ∈ (samplingBodyStep sampler count st).1.trace.dropLast, 5 * c < 4 * count) := by
  simp only [samplingBodyStep]
  generalize (if st.iteration + 1 = 1 then INITIAL_BATCH_SIZE else SUBSEQUENT_BATCH_SIZE) = B
  have hlen := hs (min (min B (MAX_SAMPLES - st.totalSampled)) count) (st.iteration + 1)
  have hmin1 : min (min B (MAX_SAMPLES - st.totalSampled)) count ≤
      min B (MAX_SAMPLES - st.totalSampled) := min_le_left _ _
  have hmin2 : min B (MAX_SAMPLES - st.totalSampled) ≤ MAX_SAMPLES - st.totalSampled :=
    min_le_right _ _
  split
  · exact ⟨h1, fun h => absurd h (by simp),
      fun _ c hc => h2 c (mem_of_mem_dropLast hc)⟩
  · split
    · exact ⟨h1, fun h => absurd h (by simp),
        fun _ c hc => h2 c (mem_of_mem_dropLast hc)⟩
    · split
      · refine ⟨by dsimp only; omega, fun h => absurd h (by simp), fun _ => ?_⟩
        dsimp only
        rw [dropLast_append_single]
        exact h2
      · refine ⟨by dsimp only; omega, fun _ c hc => ?_, fun h => absurd h (by simp)⟩
        dsimp only at hc
        rcases List.mem_append.mp hc with hmem | hmem
        · exact h2 c hmem
        · have hc' : c = st.totalSampled +
              (sampler (min (min B (MAX_SAMPLES - st.totalSampled)) count)
                (st.iteration + 1)).length := List.mem_singleton.mp hmem
          subst hc'
          omega

/-- The sampling loop preserves the `MAX_SAMPLES` bound and the property
that every non-final batch boundary is strictly below 80% of the total
collection count. -/
theorem samplingLoopF_inv (sampler : Nat → Nat → List BVal) (count : Nat)
    (hs : ∀ k i, (sampler k i).length ≤ k) :
    ∀ (fuel : Nat) (st : SamplingState), st.totalSampled ≤ MAX_SAMPLES →
      (∀ c ∈ st.trace, 5 * c < 4 * count) →
      (samplingLoopF sampler count fuel st).totalSampled ≤ MAX_SAMPLES ∧
      ∀ c ∈ (samplingLoopF sampler count fuel st).trace.dropLast,
        5 * c < 4 * count := by
  intro fuel
  induction fuel with
  | zero =>
    intro st h1 h2
    exact ⟨h1, fun c hc => h2 c (mem_of_mem_dropLast hc)⟩
  | succ fuel ih =>
    intro st h1 h2
    simp only [samplingLoopF]
    split
    · have hspec := samplingBodyStep_bound sampler count hs st h1 h2
      split
      · exact ih _ hspec.1 (hspec.2.1 (by assumption))
      · exact ⟨hspec.1, hspec.2.2 (by simp_all)⟩
    · exact ⟨h1, fun c hc => h2 c (mem_of_mem_dropLast hc)⟩

/-- C6: for every sampler that returns at most the requested number of
documents, the cumulative number of sampled documents never exceeds
`MAX_SAMPLES = 5000`, and the loop never continues past a batch boundary
at which the cumulative count has reached 80% of the total collection
count (every recorded boundary except possibly the final one is strictly
below that fraction). -/
theorem c6_hard_stops (sampler : Nat → Nat → List BVal) (count : Nat)
    (hs : ∀ k i, (sampler k i).length ≤ k) :
    (dynamicSampling sampler count).totalSampled ≤ MAX_SAMPLES ∧
    ∀ c ∈ (dynamicSampling sampler count).trace.dropLast,
      5 * c < 4 * count := by
  unfold dynamicSampling
  split
  · exact ⟨Nat.zero_le _, by simp⟩
  · have h := samplingLoopF_inv sampler count hs (MAX_SAMPLES + 1)
      ⟨[], [], 0, 0, 0, []⟩ (Nat.zero_le _) (by simp)
    exact h

/-- Witness for C6 at a concrete sampler and collection size. -/
theorem c6_hard_stops_witness :
    (dynamicSampling (fun _ _ => []) 7).totalSampled ≤ MAX_SAMPLES :=
  (c6_hard_stops (fun _ _ => []) 7 (by intro k i; simp)).1

/-! ### Nested-field nullability invariant (C9) -/

/-- Every accumulated field record is flagged nullable. -/
def mapOk (fm : FieldMap) : Prop := ∀ p ∈ fm, p.2.isNullable = true

/-- Every schema in the nested-type registry has only nullable fields. -/
def nestedOk (nt : NestedMap) : Prop :=
  ∀ p ∈ nt, ∀ f ∈ p.2.fields, f.isNullable = true

theorem mem_setAssoc {α : Type} {k : String} {v : α} :
    ∀ {l : List (String × α)} {q : String × α},
      q ∈ setAssoc k v l → q = (k, v) ∨ q ∈ l := by
  intro l
  induction l with
  | nil => intro q h; simpa [setAssoc] using h
  | cons p rest ih =>
    intro q h
    obtain ⟨k', v'⟩ := p
    simp only [setAssoc] at h
    split at h
    · rcases List.mem_cons.mp h with h' | h'
      · exact Or.inl h'
      · exact Or.inr (List.mem_cons_of_mem _ h')
    · rcases List.mem_cons.mp h with h' | h'
      · exact Or.inr (h' ▸ List.mem_cons_self _ _)
      · rcases ih h' with h'' | h''
        · exact Or.inl h''
        · exact Or.inr (List.mem_cons_of_mem _ h'')

theorem lookup_mem {α : Type} :
    ∀ {l : List (String × α)} {k : String} {v : α},
      List.lookup k l = some v → (k, v) ∈ l := by
  intro l
  induction l with
  | nil => intro k v h; simp [List.lookup] at h
  | cons p rest ih =>
    intro k v h
    obtain ⟨k', v'⟩ := p
    simp only [List.lookup] at h
    split at h
    · obtain rfl : v' = v := by injection h
      have : k = k' := by
        rename_i hbeq
        exact eq_of_beq hbeq
      exact this ▸ List.mem_cons_self _ _
    · exact List.mem_cons_of_mem _ (ih h)

theorem mapOk_setAssoc {fm : FieldMap} {k : String} {f : FieldAcc}
    (hm : mapOk fm) (hf : f.isNullable = true) : mapOk (setAssoc k f fm) := by
  intro q hq
  rcases mem_setAssoc hq with h | h
  · rw [h]; exact hf
  · exact hm q h

theorem nestedOk_setAssoc {nt : NestedMap} {k : String} {e : EntitySchema}
    (hn : nestedOk nt) (he : ∀ f ∈ e.fields, f.isNullable = true) :
    nestedOk (setAssoc k e nt) := by
  intro q hq
  rcases mem_setAssoc hq with h | h
  · rw [h]; exact he
  · exact hn q h

theorem mapOk_lookup {fm : FieldMap} {k : String} {f : FieldAcc}
    (hm : mapOk fm) (h : List.lookup k fm = some f) : f.isNullable = true :=
  hm (k, f) (lookup_mem h)

/-- `finishEntry` never touches the nested registry, and it preserves the
all-nullable property of the field map: new fields are inserted nullable
and merges never clear the flag. -/
theorem finishEntry_ok {n t : String} {a : Bool} {fm : FieldMap} {nt : NestedMap}
    {b : Bool} {fm' : FieldMap} {nt' : NestedMap}
    (h : finishEntry n t a fm nt b = .ok (fm', nt')) :
    nt' = nt ∧ (mapOk fm → mapOk fm') := by
  unfold finishEntry at h
  cases hl : List.lookup n fm with
  | none =>
    rw [hl] at h
    simp only [Except.ok.injEq, Prod.mk.injEq] at h
    obtain ⟨hfm, hnt⟩ := h
    subst hfm hnt
    exact ⟨rfl, fun hm => mapOk_setAssoc hm rfl⟩
  | some f =>
    rw [hl] at h
    simp only [Except.ok.injEq, Prod.mk.injEq] at h
    obtain ⟨hfm, hnt⟩ := h
    subst hfm hnt
    refine ⟨rfl, fun hm => mapOk_setAssoc hm ?_⟩
    have hf : f.isNullable = true := mapOk_lookup hm hl
    dsimp only
    repeat' split
    all_goals simp [hf]

/-- One entry of the `Object.entries` loop preserves the all-nullable
properties: the nested registry only ever receives schemas whose fields
are all nullable (creation sets the flag explicitly, updates re-derive
the fields from an all-nullable seed), and the field map only receives
nullable records. -/
theorem analyzeEntryCore_ok
    (recurse : BVal → FieldMap → String → String → NestedMap →
      Except String (FieldMap × NestedMap))
    (hrec : ∀ d fm0 pn cp nt0 fm1 nt1, recurse d fm0 pn cp nt0 = .ok (fm1, nt1) →
      nestedOk nt0 → nestedOk nt1 ∧ (mapOk fm0 → mapOk fm1)) :
    ∀ {key : String} {value : BVal} {fm : FieldMap} {parent path : String}
      {nt : NestedMap} {fm' : FieldMap} {nt' : NestedMap},
      analyzeEntryCore recurse key value fm parent path nt = .ok (fm', nt') →
      nestedOk nt → nestedOk nt' ∧ (mapOk fm → mapOk fm') := by
  intro key value fm parent path nt fm' nt' h hnt
  simp only [analyzeEntryCore] at h
  split at h
  · simp only [Except.ok.injEq, Prod.mk.injEq] at h
    obtain ⟨rfl, rfl⟩ := h
    exact ⟨hnt, id⟩
  · split at h
    · simp only [Except.ok.injEq, Prod.mk.injEq] at h
      obtain ⟨rfl, rfl⟩ := h
      exact ⟨hnt, id⟩
    · split at h
      · -- null observation
        split at h
        all_goals
          simp only [Except.ok.injEq, Prod.mk.injEq] at h
        · obtain ⟨rfl, rfl⟩ := h
          exact ⟨hnt, fun hm => mapOk_setAssoc hm rfl⟩
        · obtain ⟨rfl, rfl⟩ := h
          exact ⟨hnt, fun hm => mapOk_setAssoc hm rfl⟩
      · split at h
        · obtain ⟨hnt', himp⟩ := finishEntry_ok h
          exact ⟨hnt' ▸ hnt, himp⟩
        · split at h
          · obtain ⟨hnt', himp⟩ := finishEntry_ok h
            exact ⟨hnt' ▸ hnt, himp⟩
          · split at h
            · exact absurd h (by simp)
            · split at h
              · split at h
                · -- synthesize or update a nested type
                  split at h
                  · split at h
                    · exact absurd h (by simp)
                    · rename_i nfm nt2 hr
                      obtain ⟨hnt2, _⟩ := hrec _ _ _ _ _ _ _ hr hnt
                      obtain ⟨hnt', himp⟩ := finishEntry_ok h
                      subst hnt'
                      refine ⟨nestedOk_setAssoc hnt2 ?_, himp⟩
                      intro f hf
                      obtain ⟨p, _, rfl⟩ := List.mem_map.mp hf
                      rfl
                  · rename_i existingType hlk
                    split at h
                    · exact absurd h (by simp)
                    · rename_i nfm nt2 hr
                      have hseed : mapOk (existingType.fields.map (fun f => (f.name, accOf f 1))) := by
                        intro q hq
                        obtain ⟨f, hfmem, rfl⟩ := List.mem_map.mp hq
                        exact hnt _ (lookup_mem hlk) f hfmem
                      obtain ⟨hnt2, himp2⟩ := hrec _ _ _ _ _ _ _ hr hnt
                      obtain ⟨hnt', himp⟩ := finishEntry_ok h
                      subst hnt'
                      refine ⟨nestedOk_setAssoc hnt2 ?_, himp⟩
                      intro f hf
                      obtain ⟨p, hpmem, rfl⟩ := List.mem_map.mp hf
                      exact himp2 hseed p hpmem
                · obtain ⟨hnt', himp⟩ := finishEntry_ok h
                  exact ⟨hnt' ▸ hnt, himp⟩
              · obtain ⟨hnt', himp⟩ := finishEntry_ok h
                exact ⟨hnt' ▸ hnt, himp⟩

/-- Folding the entry analysis over a list of entries preserves the
all-nullable properties. -/
theorem foldEntries_ok
    (recurse : BVal → FieldMap → String → String → NestedMap →
      Except String (FieldMap × NestedMap))
    (hrec : ∀ d fm0 pn cp nt0 fm1 nt1, recurse d fm0 pn cp nt0 = .ok (fm1, nt1) →
      nestedOk nt0 → nestedOk nt1 ∧ (mapOk fm0 → mapOk fm1))
    (parent path : String) :
    ∀ (es : List (String × BVal)) (fm : FieldMap) (nt : NestedMap)
      (fm' : FieldMap) (nt' : NestedMap),
      es.foldlM (fun (st : FieldMap × NestedMap) kv =>
          analyzeEntryCore recurse kv.1 kv.2 st.1 parent path st.2) (fm, nt) =
        .ok (fm', nt') →
      nestedOk nt → nestedOk nt' ∧ (mapOk fm → mapOk fm') := by
  intro es
  induction es with
  | nil =>
    intro fm nt fm' nt' h hnt
    simp only [List.foldlM_nil, pure, Except.pure, Except.ok.injEq, Prod.mk.injEq] at h
    obtain ⟨rfl, rfl⟩ := h
    exact ⟨hnt, id⟩
  | cons kv rest ih =>
    intro fm nt fm' nt' h hnt
    rw [List.foldlM_cons] at h
    cases hstep : analyzeEntryCore recurse kv.1 kv.2 fm parent path nt with
    | error e => rw [hstep] at h; exact Except.noConfusion h
    | ok st1 =>
      rw [hstep] at h
      obtain ⟨fm1, nt1⟩ := st1
      have hrest : rest.foldlM (fun (st : FieldMap × NestedMap) kv =>
          analyzeEntryCore recurse kv.1 kv.2 st.1 parent path st.2) (fm1, nt1) =
          .ok (fm', nt') := h
      obtain ⟨hnt1, himp1⟩ := analyzeEntryCore_ok recurse hrec hstep hnt
      obtain ⟨hnt', himp'⟩ := ih fm1 nt1 fm' nt' hrest hnt1
      exact ⟨hnt', fun hm => himp' (himp1 hm)⟩

/-- `analyzeDocumentWithNesting` (at any fuel) preserves the all-nullable
properties of the nested registry and of the field map. -/
theorem analyzeDocF_ok :
    ∀ (fuel : Nat) (doc : BVal) (fm : FieldMap) (totalDocs : Nat)
      (parent path : String) (nt : NestedMap) (fm' : FieldMap) (nt' : NestedMap),
      analyzeDocF fuel doc fm totalDocs parent path nt = .ok (fm', nt') →
      nestedOk nt → nestedOk nt' ∧ (mapOk fm → mapOk fm') := by
  intro fuel
  induction fuel with
  | zero =>
    intro doc fm totalDocs parent path nt fm' nt' h
    exact absurd h (by simp [analyzeDocF])
  | succ fuel ih =>
    intro doc fm totalDocs parent path nt fm' nt' h hnt
    simp only [analyzeDocF] at h
    split at h
    · exact foldEntries_ok _
        (fun d fm0 pn cp nt0 fm1 nt1 hr => ih d fm0 totalDocs pn cp nt0 fm1 nt1 hr)
        parent path _ fm nt fm' nt' h hnt
    · simp only [Except.ok.injEq, Prod.mk.injEq] at h
      obtain ⟨rfl, rfl⟩ := h
      exact ⟨hnt, id⟩

/-- The whole-run document loop preserves the nested-registry invariant. -/
theorem analyzeDocs_ok :
    ∀ (docs : List BVal) (fm : FieldMap) (totalDocs : Nat) (typeName : String)
      (nt : NestedMap) (fm' : FieldMap) (nt' : NestedMap),
      analyzeDocs docs fm totalDocs typeName nt = .ok (fm', nt') →
      nestedOk nt → nestedOk nt' := by
  intro docs
  induction docs with
  | nil =>
    intro fm totalDocs typeName nt fm' nt' h hnt
    simp only [analyzeDocs, Except.ok.injEq, Prod.mk.injEq] at h
    obtain ⟨rfl, rfl⟩ := h
    exact hnt
  | cons doc rest ih =>
    intro fm totalDocs typeName nt fm' nt' h hnt
    simp only [analyzeDocs] at h
    cases hstep : analyzeDocumentWithNesting doc fm totalDocs typeName "" nt with
    | error e => rw [hstep] at h; exact absurd h (by simp)
    | ok st1 =>
      obtain ⟨fm1, nt1⟩ := st1
      rw [hstep] at h
      unfold analyzeDocumentWithNesting at hstep
      have h1 := analyzeDocF_ok _ doc fm totalDocs typeName "" nt fm1 nt1 hstep hnt
      exact ih fm1 totalDocs typeName nt1 fm' nt' h h1.1

/-- C9: every field of every synthesized nested `EntitySchema` returned by
`introspectCollection` is nullable — the run-end non-nullability
promotion only runs over the top-level field map. -/
theorem c9_nested_fields_all_nullable (name : String) (docs : List BVal)
    (res : IntrospectResult)
    (hok : introspectCollection name docs = .ok res) :
    ∀ e ∈ res.nestedTypes, ∀ f ∈ e.fields, f.isNullable = true := by
  unfold introspectCollection at hok
  split at hok
  · simp only [Except.ok.injEq] at hok
    subst hok
    intro e he
    exact absurd he (by simp)
  · dsimp only at hok
    split at hok
    · exact absurd hok (by simp)
    · rename_i fm nt hdocs
      have hnt := analyzeDocs_ok docs _ docs.length _ [] fm nt hdocs (by intro p hp; simp at hp)
      simp only [Except.ok.injEq] at hok
      subst hok
      intro e he f hf
      simp only [List.mem_map] at he
      obtain ⟨p, hpmem, rfl⟩ := he
      exact hnt p hpmem f hf

/-- Witness for C9: a concrete collection with a nested object. -/
theorem c9_nested_fields_all_nullable_witness :
    (⟨"t", "Int", false, true, false⟩ : FieldDefinition).isNullable = true :=
  c9_nested_fields_all_nullable "items" [.vobj [("m", .vobj [("t", .vint 1)])]]
    ⟨⟨"Item",
      [⟨"_id", "ID", false, false, true⟩, ⟨"m", "ItemM", false, true, false⟩],
      "Collection: items (sampled 1 documents, 2 unique fields)",
      false, some "items"⟩,
      [⟨"ItemM", [⟨"t", "Int", false, true, false⟩],
        "Nested type from Item.m", true, none⟩], false⟩
    rfl
    ⟨"ItemM", [⟨"t", "Int", false, true, false⟩], "Nested type from Item.m", true, none⟩
    (by simp)
    ⟨"t", "Int", false, true, false⟩
    (by simp)

/-! ### Preservation of the seeded `_id` definition (C10) -/

/-- A root-level key cannot disturb the seeded `_id` record when it is the
literal `_id` (skipped), an internal-prefix key (skipped), or a key whose
sanitized name differs from `_id`. -/
def keyOkForId (k : String) : Prop :=
  k = "_id" ∨ jsStartsWith k "__" = true ∨ jsStartsWith k "$" = true ∨
    sanitizeFieldName k ≠ "_id"

theorem setAssoc_head {k : String} {v : FieldAcc} {fm : FieldMap} {acc : FieldAcc}
    (hk : k ≠ "_id") (hh : fm.head? = some ("_id", acc)) :
    (setAssoc k v fm).head? = some ("_id", acc) := by
  cases fm with
  | nil => simp at hh
  | cons p rest =>
    obtain ⟨k', v'⟩ := p
    simp only [List.head?_cons, Option.some.injEq] at hh
    injection hh with h1 h2
    subst h1
    subst h2
    simp only [setAssoc]
    rw [if_neg (fun hcon => hk hcon.symm)]
    rfl

theorem finishEntry_head {n t : String} {a : Bool} {fm : FieldMap} {nt : NestedMap}
    {b : Bool} {fm' : FieldMap} {nt' : NestedMap} {acc : FieldAcc}
    (hn : n ≠ "_id")
    (h : finishEntry n t a fm nt b = .ok (fm', nt'))
    (hh : fm.head? = some ("_id", acc)) :
    fm'.head? = some ("_id", acc) := by
  unfold finishEntry at h
  cases hl : List.lookup n fm with
  | none =>
    rw [hl] at h
    simp only [Except.ok.injEq, Prod.mk.injEq] at h
    obtain ⟨hfm, _⟩ := h
    subst hfm
    exact setAssoc_head hn hh
  | some f =>
    rw [hl] at h
    simp only [Except.ok.injEq, Prod.mk.injEq] at h
    obtain ⟨hfm, _⟩ := h
    subst hfm
    exact setAssoc_head hn hh

/-- A single entry iteration at the document root never disturbs the
seeded `_id` record when its key satisfies `keyOkForId`; nested-type
synthesis works on fresh or seeded nested maps, not on the root map. -/
theorem analyzeEntryCore_head
    (recurse : BVal → FieldMap → String → String → NestedMap →
      Except String (FieldMap × NestedMap))
    {key : String} {value : BVal} {fm : FieldMap} {parent : String}
    {nt : NestedMap} {fm' : FieldMap} {nt' : NestedMap} {acc : FieldAcc}
    (hkey : keyOkForId key)
    (h : analyzeEntryCore recurse key value fm parent "" nt = .ok (fm', nt'))
    (hh : fm.head? = some ("_id", acc)) :
    fm'.head? = some ("_id", acc) := by
  simp only [analyzeEntryCore] at h
  split at h
  · simp only [Except.ok.injEq, Prod.mk.injEq] at h
    obtain ⟨rfl, _⟩ := h
    exact hh
  · split at h
    · simp only [Except.ok.injEq, Prod.mk.injEq] at h
      obtain ⟨rfl, _⟩ := h
      exact hh
    · rename_i hc1 hc2
      have hsan : sanitizeFieldName key ≠ "_id" := by
        rcases hkey with hk | hk | hk | hk
        · exact absurd (by simp [hk]) hc1
        · exact absurd (by simp [hk]) hc2
        · exact absurd (by simp [hk]) hc2
        · exact hk
      split at h
      · split at h
        · simp only [Except.ok.injEq, Prod.mk.injEq] at h
          obtain ⟨rfl, _⟩ := h
          exact setAssoc_head hsan hh
        · simp only [Except.ok.injEq, Prod.mk.injEq] at h
          obtain ⟨rfl, _⟩ := h
          exact setAssoc_head hsan hh
      · split at h
        · exact finishEntry_head hsan h hh
        · split at h
          · exact finishEntry_head hsan h hh
          · split at h
            · exact absurd h (by simp)
            · split at h
              · split at h
                · split at h
                  · split at h
                    · exact absurd h (by simp)
                    · exact finishEntry_head hsan h hh
                  · split at h
                    · exact absurd h (by simp)
                    · exact finishEntry_head hsan h hh
                · exact finishEntry_head hsan h hh
              · exact finishEntry_head hsan h hh

theorem foldEntries_head
    (recurse : BVal → FieldMap → String → String → NestedMap →
      Except String (FieldMap × NestedMap))
    (parent : String) :
    ∀ (es : List (String × BVal)) (fm : FieldMap) (nt : NestedMap)
      (fm' : FieldMap) (nt' : NestedMap) (acc : FieldAcc),
      (∀ kv ∈ es, keyOkForId kv.1) →
      es.foldlM (fun (st : FieldMap × NestedMap) kv =>
          analyzeEntryCore recurse kv.1 kv.2 st.1 parent "" st.2) (fm, nt) =
        .ok (fm', nt') →
      fm.head? = some ("_id", acc) → fm'.head? = some ("_id", acc) := by
  intro es
  induction es with
  | nil =>
    intro fm nt fm' nt' acc _ h hh
    simp only [List.foldlM_nil, pure, Except.pure, Except.ok.injEq, Prod.mk.injEq] at h
    obtain ⟨rfl, _⟩ := h
    exact hh
  | cons kv rest ih =>
    intro fm nt fm' nt' acc hks h hh
    rw [List.foldlM_cons] at h
    cases hstep : analyzeEntryCore recurse kv.1 kv.2 fm parent "" nt with
    | error e => rw [hstep] at h; exact Except.noConfusion h
    | ok st1 =>
      rw [hstep] at h
      obtain ⟨fm1, nt1⟩ := st1
      have hh1 := analyzeEntryCore_head recurse (hks kv (List.mem_cons_self _ _)) hstep hh
      exact ih fm1 nt1 fm' nt' acc
        (fun kv' hkv' => hks kv' (List.mem_cons_of_mem _ hkv')) h hh1

theorem analyzeDocF_head :
    ∀ (fuel : Nat) (doc : BVal) (fm : FieldMap) (totalDocs : Nat) (parent : String)
      (nt : NestedMap) (fm' : FieldMap) (nt' : NestedMap) (acc : FieldAcc),
      (∀ kv ∈ BVal.entriesOf doc, keyOkForId kv.1) →
      analyzeDocF fuel doc fm totalDocs parent "" nt = .ok (fm', nt') →
      fm.head? = some ("_id", acc) → fm'.head? = some ("_id", acc) := by
  intro fuel
  cases fuel with
  | zero =>
    intro doc fm totalDocs parent nt fm' nt' acc _ h
    exact absurd h (by simp [analyzeDocF])
  | succ fuel =>
    intro doc fm totalDocs parent nt fm' nt' acc hks h hh
    simp only [analyzeDocF] at h
    split at h
    · exact foldEntries_head _ parent _ fm nt fm' nt' acc hks h hh
    · simp only [Except.ok.injEq, Prod.mk.injEq] at h
      obtain ⟨rfl, _⟩ := h
      exact hh

theorem analyzeDocs_head :
    ∀ (docs : List BVal) (fm : FieldMap) (totalDocs : Nat) (typeName : String)
      (nt : NestedMap) (fm' : FieldMap) (nt' : NestedMap) (acc : FieldAcc),
      (∀ d ∈ docs, ∀ kv ∈ BVal.entriesOf d, keyOkForId kv.1) →
      analyzeDocs docs fm totalDocs typeName nt = .ok (fm', nt') →
      fm.head? = some ("_id", acc) → fm'.head? = some ("_id", acc) := by
  intro docs
  induction docs with
  | nil =>
    intro fm totalDocs typeName nt fm' nt' acc _ h hh
    simp only [analyzeDocs, Except.ok.injEq, Prod.mk.injEq] at h
    obtain ⟨rfl, _⟩ := h
    exact hh
  | cons doc rest ih =>
    intro fm totalDocs typeName nt fm' nt' acc hks h hh
    simp only [analyzeDocs] at h
    cases hstep : analyzeDocumentWithNesting doc fm totalDocs typeName "" nt with
    | error e => rw [hstep] at h; exact absurd h (by simp)
    | ok st1 =>
      obtain ⟨fm1, nt1⟩ := st1
      rw [hstep] at h
      unfold analyzeDocumentWithNesting at hstep
      have hh1 := analyzeDocF_head _ doc fm totalDocs typeName nt fm1 nt1 acc
        (hks doc (List.mem_cons_self _ _)) hstep hh
      exact ih fm1 totalDocs typeName nt1 fm' nt' acc
        (fun d hd => hks d (List.mem_cons_of_mem _ hd)) h hh1

/-- C10 (amended): for every sampled collection in which no root-level key
other than the literal `_id` (or an internal `__`/`$`-prefixed key)
sanitizes to `_id`, the returned top-level schema's first field is the
fixed `_id` definition — type `ID`, non-array, non-nullable — regardless
of the documents' contents; a root-level `_id` value is skipped and never
analyzed. -/
theorem c10_amended_id_definition_fixed (name : String) (docs : List BVal)
    (res : IntrospectResult)
    (hkeys : ∀ d ∈ docs, ∀ kv ∈ BVal.entriesOf d, keyOkForId kv.1)
    (hok : introspectCollection name docs = .ok res) :
    res.mainEntity.fields.head? = some ⟨"_id", "ID", false, false, true⟩ := by
  unfold introspectCollection at hok
  split at hok
  · simp only [Except.ok.injEq] at hok
    subst hok
    rfl
  · dsimp only at hok
    split at hok
    · exact absurd hok (by simp)
    · rename_i fm nt hdocs
      have hhead := analyzeDocs_head docs _ docs.length _ [] fm nt
        ⟨"_id", "ID", false, false, true, docs.length⟩ hkeys hdocs rfl
      simp only [Except.ok.injEq] at hok
      subst hok
      dsimp only
      rw [List.head?_map]
      cases fm with
      | nil => simp at hhead
      | cons p rest =>
        simp only [List.head?_cons, Option.some.injEq] at hhead
        subst hhead
        simp [finalizeField, stripOcc]

/-- Witness for the amended C10 theorem at a concrete collection. -/
theorem c10_amended_witness :
    (⟨⟨"Item",
      [⟨"_id", "ID", false, false, true⟩, ⟨"a", "Int", false, true, false⟩],
      "Collection: items (sampled 1 documents, 2 unique fields)",
      false, some "items"⟩, [], false⟩ :
        IntrospectResult).mainEntity.fields.head? =
      some ⟨"_id", "ID", false, false, true⟩ :=
  c10_amended_id_definition_fixed "items" [.vobj [("a", .vint 1)]]
    ⟨⟨"Item",
      [⟨"_id", "ID", false, false, true⟩, ⟨"a", "Int", false, true, false⟩],
      "Collection: items (sampled 1 documents, 2 unique fields)",
      false, some "items"⟩, [], false⟩
    (by intro d hd kv hkv; simp at hd; subst hd; simp [BVal.entriesOf] at hkv;
        subst hkv; right; right; right; decide)
    rfl

/-- C8 (amended): when a collection's introspection fails (for instance on
a malformed document), the failure is caught and logged at the
per-collection level: no schema is produced for that collection, and the
remaining collections of the run are still processed. -/
theorem c8_amended_failing_collection_skipped (name : String) (docs : List BVal)
    (rest : List (String × List BVal)) (e : String)
    (herr : introspectCollection name docs = .error e) :
    (introspect ((name, docs) :: rest)).1 = (introspect rest).1 ∧
    (introspect ((name, docs) :: rest)).2 = 1 + (introspect rest).2 := by
  constructor <;> simp [introspect, herr]

/-- Witness for the amended C8 theorem: the malformed collection `as` is
skipped and the run continues with `bs`. -/
theorem c8_amended_witness :
    (introspect [("as", [.vobj [("a", .varr [.vnull])]]),
        ("bs", [.vobj [("b", .vint 1)]])]).1 =
      (introspect [("bs", [.vobj [("b", .vint 1)]])]).1 :=
  (c8_amended_failing_collection_skipped "as" [.vobj [("a", .varr [.vnull])]]
    [("bs", [.vobj [("b", .vint 1)]])]
    "TypeError: Cannot read properties of null (reading constructor)" rfl).1

/-- C4 (amended): a null observation of an already-tracked field only sets
its nullable flag, leaving type, array-ness and occurrence count
untouched; a null observation of an untracked field installs a nullable
placeholder record of type `String` — which then participates in the
widening merges with later non-null observations, so the final type of a
field first seen as null is the widening of `String` with the later
observed types, not the first non-null observation's type alone. -/
theorem c4_amended_null_marks_nullable
    (recurse : BVal → FieldMap → String → String → NestedMap →
      Except String (FieldMap × NestedMap))
    (key : String) (fm : FieldMap) (parent path : String) (nt : NestedMap)
    (field : FieldAcc)
    (h1 : ¬(key = "_id" ∧ path = ""))
    (h2 : jsStartsWith key "__" = false)
    (h3 : jsStartsWith key "$" = false) :
    (List.lookup (sanitizeFieldName key) fm = some field →
      analyzeEntryCore recurse key .vnull fm parent path nt =
        .ok (setAssoc (sanitizeFieldName key)
          { field with isNullable := true } fm, nt)) ∧
    (List.lookup (sanitizeFieldName key) fm = none →
      analyzeEntryCore recurse key .vnull fm parent path nt =
        .ok (setAssoc (sanitizeFieldName key)
          ⟨sanitizeFieldName key, "String", false, true, false, 1⟩ fm, nt)) := by
  constructor <;> intro hlk <;> simp [analyzeEntryCore, hlk, h1, h2, h3, BVal.isNull]

/-- Witness for the amended C4 theorem at a concrete unseen field. -/
theorem c4_amended_witness :
    analyzeEntryCore (fun _ fm' _ _ nt' => .ok (fm', nt')) "f" .vnull [] "Item" "x" [] =
      .ok ([("f", ⟨"f", "String", false, true, false, 1⟩)], []) :=
  (c4_amended_null_marks_nullable (fun _ fm' _ _ nt' => .ok (fm', nt'))
    "f" [] "Item" "x" [] ⟨"f", "String", false, true, false, 1⟩
    (by simp) (by decide) (by decide)).2 rfl

end OpenGraphQL
